import Mathlib

/-!
Verification of the Feedback Alignment implementation
(feedback_alignment.py): a custom differentiable operation
(FeedbackAlignmentFunction) computing a multilayer perceptron's forward
pass and a hand-written backward pass that propagates error through fixed
random feedback matrices, plus the owning module (FeedbackAlignmentMLP).

Tensors are shallowly embedded as lists of integer rows; the numeric
payload type is irrelevant to every property checked here (all claims are
structural: dataflow, shapes, gating by sign comparisons, parameter
independence).  Operations that the tensor substrate would reject on
dimension mismatch are embedded as Except-valued checked operations whose
error value records the pre-activations whose arithmetic had already been
performed when the mismatch was detected.
-/

set_option autoImplicit false

abbrev Vec := List Int

abbrev Mat := List (List Int)

/-- Elementwise dot product of two rows (truncating, used only on
equal-length rows). -/
def dot (u v : Vec) : Int :=
  (List.zipWith (fun x y => x * y) u v).sum

/-- Column count of a matrix, read off the first row (the embedding's
replacement for tensor shape metadata; meaningful for rectangular,
nonempty matrices). -/
def colsOf (m : Mat) : Nat :=
  (m.headD []).length

/-- Rectangularity check: every row has the same length as the first. -/
def rectB (m : Mat) : Bool :=
  m.all (fun r => r.length == colsOf m)

/-- Product a.matmul(w.t()) : entry (i, j) is the dot product of row i of
a with row j of w. -/
def matmulT (a w : Mat) : Mat :=
  a.map (fun r => w.map (fun wr => dot r wr))

/-- Transpose of a rectangular matrix (row j of the result is column j of
the input). -/
def transposeM (m : Mat) : Mat :=
  (List.range (colsOf m)).map (fun j => m.map (fun r => r.getD j 0))

/-- Plain matrix product a.matmul(b). -/
def matmulM (a b : Mat) : Mat :=
  matmulT a (transposeM b)

/-- Product d.t().matmul(a). -/
def tmatmulM (d a : Mat) : Mat :=
  matmulT (transposeM d) (transposeM a)

/-- Row-broadcast addition z + b of a bias row onto every row of z. -/
def addBias (z : Mat) (b : Vec) : Mat :=
  z.map (fun r => List.zipWith (fun x y => x + y) r b)

/-- torch.relu, elementwise max with zero. -/
def reluM (m : Mat) : Mat :=
  m.map (fun r => r.map (fun x => max x 0))

/-- The mask (z > 0).float(): one where the entry is strictly positive,
zero otherwise (in particular zero at an entry that is exactly zero). -/
def reluMaskM (m : Mat) : Mat :=
  m.map (fun r => r.map (fun x => if 0 < x then (1 : Int) else 0))

/-- Elementwise product of two same-shaped matrices. -/
def hadamardM (x y : Mat) : Mat :=
  List.zipWith (fun r s => List.zipWith (fun p q => p * q) r s) x y

/-- delta.sum(0): column sums over the batch (row) dimension of a
nonempty rectangular matrix. -/
def colSum (m : Mat) : Vec :=
  match m with
  | [] => []
  | r :: rs => rs.foldl (fun acc r2 => List.zipWith (fun x y => x + y) acc r2) r

/-- Entry (r, c) of a matrix, with zero default out of range. -/
def entry (m : Mat) (r c : Nat) : Int :=
  (m.getD r []).getD c 0

/-- A substrate tensor: either one-dimensional (a bias) or
two-dimensional (an input batch, weight, feedback matrix, pre-activation
or activation). -/
inductive Tensor where
  | vec (v : Vec)
  | mat (m : Mat)
deriving DecidableEq

/-- The fatal error raised by the tensor substrate on a dimension
incompatibility; zs_done records the pre-activation tensors whose
arithmetic had already been performed when the mismatch was detected. -/
structure ShapeMismatch where
  zs_done : List Tensor
deriving DecidableEq

/-- Checked embedding of input.matmul(weights[i].t()) + biases[i]. -/
def affineChk (input w b : Tensor) : Except ShapeMismatch Tensor :=
  match input, w, b with
  | .mat A, .mat W, .vec bv =>
    if rectB A && rectB W && (colsOf A == colsOf W) && (bv.length == W.length) then
      .ok (.mat (addBias (matmulT A W) bv))
    else
      .error { zs_done := [] }
  | _, _, _ => .error { zs_done := [] }

/-- torch.relu on a tensor. -/
def reluT : Tensor → Tensor
  | .vec v => .vec (v.map (fun x => max x 0))
  | .mat m => .mat (reluM m)

/-- The mask (z > 0).float() on a tensor. -/
def reluMaskT : Tensor → Tensor
  | .vec v => .vec (v.map (fun x => if 0 < x then (1 : Int) else 0))
  | .mat m => .mat (reluMaskM m)

/-- Checked embedding of delta.t().matmul(a). -/
def tmatmulChk (d a : Tensor) : Except ShapeMismatch Tensor :=
  match d, a with
  | .mat D, .mat A =>
    if rectB D && rectB A && (D.length == A.length) then
      .ok (.mat (tmatmulM D A))
    else
      .error { zs_done := [] }
  | _, _ => .error { zs_done := [] }

/-- Checked embedding of delta.matmul(f). -/
def matmulChk (d f : Tensor) : Except ShapeMismatch Tensor :=
  match d, f with
  | .mat D, .mat F =>
    if rectB D && rectB F && (colsOf D == F.length) then
      .ok (.mat (matmulM D F))
    else
      .error { zs_done := [] }
  | _, _ => .error { zs_done := [] }

/-- Checked embedding of delta.sum(0). -/
def colSumChk : Tensor → Except ShapeMismatch Tensor
  | .mat D => .ok (.vec (colSum D))
  | .vec _ => .error { zs_done := [] }

/-- Checked elementwise product of two same-shaped matrices. -/
def hadamardChk (x y : Tensor) : Except ShapeMismatch Tensor :=
  match x, y with
  | .mat X, .mat Y =>
    if (X.length == Y.length) && rectB X && rectB Y && (colsOf X == colsOf Y) then
      .ok (.mat (hadamardM X Y))
    else
      .error { zs_done := [] }
  | _, _ => .error { zs_done := [] }

/-- The context object populated by forward for the paired backward call:
the flat saved-tensor tuple and the layer count. -/
structure FACtx where
  saved_tensors : List Tensor
  num_layers : Nat
deriving DecidableEq

/-- The layer loop of FeedbackAlignmentFunction.forward: for each
(weight, bias) pair compute z = input.matmul(w.t()) + b, apply relu
except after the last layer, and thread the activation on; returns the
pre-activation list, the activation list (one entry per layer, each the
input handed to the next layer) and the final output.  On a shape
mismatch the error records the pre-activations already computed. -/
def forwardLoop : Tensor → List (Tensor × Tensor) → Except ShapeMismatch (List Tensor × List Tensor × Tensor)
  | input, [] => .ok ([], [], input)
  | input, (w, b) :: rest =>
    match affineChk input w b with
    | .error _ => .error { zs_done := [] }
    | .ok z =>
      let a := if rest.isEmpty then z else reluT z
      match forwardLoop a rest with
      | .error e => .error { zs_done := z :: e.zs_done }
      | .ok (zs, acts, out) => .ok (z :: zs, a :: acts, out)

/-- The body of FeedbackAlignmentFunction.forward after the variadic
parameter list has been partitioned into weights, biases and feedback
matrices. -/
def forwardPartitioned (input : Tensor) (weights biases feedback_matrices : List Tensor) :
    Except ShapeMismatch (FACtx × Tensor) :=
  match forwardLoop input (weights.zip biases) with
  | .error e => .error e
  | .ok (z_values, acts, out) =>
    .ok ({ saved_tensors := weights ++ biases ++ feedback_matrices ++ z_values ++ (input :: acts),
           num_layers := weights.length }, out)

/-- FeedbackAlignmentFunction.forward: partitions the flat parameter list
by num_layers = len(params) / 3 into weights, biases and feedback
matrices (trailing parameters beyond 3 * num_layers are dropped), runs
the layer loop, and saves weights, biases, feedback matrices,
pre-activations and activations for backward. -/
def FeedbackAlignmentFunction.forward (input : Tensor) (params : List Tensor) :
    Except ShapeMismatch (FACtx × Tensor) :=
  let num_layers := params.length / 3
  forwardPartitioned input (params.take num_layers)
    ((params.drop num_layers).take num_layers)
    ((params.drop (2 * num_layers)).take num_layers)

/-- The reversed layer loop of FeedbackAlignmentFunction.backward: at
fuel i + 1 the current layer index is i; grad_W_i = delta.t().matmul(a_i)
and grad_b_i = delta.sum(0), and for i > 0 the delta handed to layer
i - 1 is delta.matmul(feedback_matrices[i]) * (z_values[i-1] > 0).float().
Gradients are accumulated in layer order (index i at position i). -/
def backLoop (feedback_matrices z_values activations : List Tensor) :
    Nat → Tensor → Except ShapeMismatch (List Tensor × List Tensor)
  | 0, _ => .ok ([], [])
  | i + 1, delta =>
    match tmatmulChk delta (activations.getD i (.mat [])) with
    | .error e => .error e
    | .ok gw =>
      match colSumChk delta with
      | .error e => .error e
      | .ok gb =>
        if 0 < i then
          match matmulChk delta (feedback_matrices.getD i (.mat [])) with
          | .error e => .error e
          | .ok p =>
            match hadamardChk p (reluMaskT (z_values.getD (i - 1) (.mat []))) with
            | .error e => .error e
            | .ok dprev =>
              match backLoop feedback_matrices z_values activations i dprev with
              | .error e => .error e
              | .ok (gws, gbs) => .ok (gws ++ [gw], gbs ++ [gb])
        else
          .ok ([gw], [gb])

/-- FeedbackAlignmentFunction.backward: re-slices the saved tensors by
num_layers (the weight and bias slices are bound but never read by the
gradient computation), runs the reversed layer loop starting from
grad_output, and returns no gradient for the original input, a gradient
for every weight and bias, and None for every feedback matrix. -/
def FeedbackAlignmentFunction.backward (ctx : FACtx) (grad_output : Tensor) :
    Except ShapeMismatch (Option Tensor × List (Option Tensor) × List (Option Tensor) × List (Option Tensor)) :=
  let num_layers := ctx.num_layers
  let feedback_matrices := (ctx.saved_tensors.drop (2 * num_layers)).take num_layers
  let z_values := (ctx.saved_tensors.drop (3 * num_layers)).take num_layers
  let activations := ctx.saved_tensors.drop (4 * num_layers)
  match backLoop feedback_matrices z_values activations num_layers grad_output with
  | .error e => .error e
  | .ok (grad_weights, grad_biases) =>
    .ok (none, grad_weights.map some, grad_biases.map some,
         List.replicate feedback_matrices.length none)

/-- The construction-time failure class of the model container (raised
when hidden_sizes is empty, where the source's unconditional read of the
last hidden size is undefined). -/
inductive ConfigurationError where
  | emptyHiddenSizes
deriving DecidableEq

/-- A substrate parameter: a tensor value with its trainable flag. -/
structure Param where
  value : Tensor
  requires_grad : Bool
deriving DecidableEq

/-- The model container: per-layer weight, bias and feedback-matrix
parameters. -/
structure FeedbackAlignmentMLP where
  weights : List Param
  biases : List Param
  feedback_matrices : List Param
deriving DecidableEq

/-- nn.init.constant_(t, 0): a zero tensor of the same shape. -/
def zerosT : Tensor → Tensor
  | .vec v => .vec (v.map (fun _ => 0))
  | .mat m => .mat (m.map (fun r => r.map (fun _ => 0)))

/-- Kaiming-uniform re-draw of every weight, modelled by a stream ks of
fresh values indexed by position; the trainable flag is untouched. -/
def kaimingReinit (ks : Nat → Mat) (ps : List Param) : List Param :=
  List.zipWith (fun i p => { p with value := Tensor.mat (ks i) }) (List.range ps.length) ps

/-- FeedbackAlignmentMLP.reset_parameters: re-draws every weight with
kaiming_uniform_ values and zeroes every bias in place; feedback matrices
are not touched. -/
def FeedbackAlignmentMLP.reset_parameters (ks : Nat → Mat) (m : FeedbackAlignmentMLP) :
    FeedbackAlignmentMLP :=
  { m with
    weights := kaimingReinit ks m.weights,
    biases := m.biases.map (fun p => { p with value := zerosT p.value }) }

/-- FeedbackAlignmentMLP construction: one (weight, bias, feedback)
triple per hidden size plus the output layer; weights and biases are
trainable, feedback matrices are built from randn draws with
requires_grad = False; the final feedback matrix reads the last hidden
size, so construction fails on an empty hidden-size list before any model
is produced; ends by calling reset_parameters.  rawW and rawB model the
uninitialized torch.Tensor allocations, randn the standard-normal draws,
ks the kaiming_uniform_ draws, each indexed by the requested dimensions
or position. -/
def FeedbackAlignmentMLP.construct (input_size : Nat) (hidden_sizes : List Nat) (output_size : Nat)
    (rawW : Nat → Nat → Mat) (rawB : Nat → Vec) (randn : Nat → Nat → Mat) (ks : Nat → Mat) :
    Except ConfigurationError FeedbackAlignmentMLP :=
  match hidden_sizes.getLast? with
  | none => .error .emptyHiddenSizes
  | some lastHidden =>
    let pairs := (input_size :: hidden_sizes).zip hidden_sizes
    let m : FeedbackAlignmentMLP :=
      { weights := pairs.map (fun pr => { value := .mat (rawW pr.2 pr.1), requires_grad := true })
          ++ [{ value := .mat (rawW output_size lastHidden), requires_grad := true }],
        biases := hidden_sizes.map (fun h => { value := .vec (rawB h), requires_grad := true })
          ++ [{ value := .vec (rawB output_size), requires_grad := true }],
        feedback_matrices := pairs.map (fun pr => { value := .mat (randn pr.2 pr.1), requires_grad := false })
          ++ [{ value := .mat (randn output_size lastHidden), requires_grad := false }] }
    .ok (m.reset_parameters ks)

/-- FeedbackAlignmentMLP.forward: delegates to
FeedbackAlignmentFunction with the flattened parameter list weights ++
biases ++ feedback_matrices. -/
def FeedbackAlignmentMLP.forward (m : FeedbackAlignmentMLP) (input : Tensor) :
    Except ShapeMismatch (FACtx × Tensor) :=
  FeedbackAlignmentFunction.forward input
    (m.weights.map (fun p => p.value) ++ m.biases.map (fun p => p.value)
      ++ m.feedback_matrices.map (fun p => p.value))

/-- Modelled from the spec: the differentiable-array substrate's
parameter update (absent from src, described in sections 6 and 9 of the
spec) applies the optimizer's update rule only to a parameter that is
flagged trainable and received a gradient; a parameter with
requires_grad = False or a null gradient is left untouched. -/
def optimizerStep (upd : Tensor → Tensor → Tensor) (p : Param) (g : Option Tensor) : Param :=
  match g, p.requires_grad with
  | some gv, true => { p with value := upd p.value gv }
  | _, _ => p

/-- Modelled from the spec: the substrate pairs each parameter with its
returned gradient positionally (a parameter beyond the gradient list has
a null gradient). -/
def applyGrads (upd : Tensor → Tensor → Tensor) : List Param → List (Option Tensor) → List Param
  | [], _ => []
  | p :: ps, [] => p :: applyGrads upd ps []
  | p :: ps, g :: gs => optimizerStep upd p g :: applyGrads upd ps gs

/-- Modelled from the spec: one training step runs forward, hands the
loss gradient to backward, and lets the optimizer apply the returned
gradients to the weights, biases and feedback matrices positionally. -/
def trainStep (upd : Tensor → Tensor → Tensor) (m : FeedbackAlignmentMLP)
    (input grad_out : Tensor) : Except ShapeMismatch FeedbackAlignmentMLP :=
  match m.forward input with
  | .error e => .error e
  | .ok (ctx, _) =>
    match FeedbackAlignmentFunction.backward ctx grad_out with
    | .error e => .error e
    | .ok (_, gws, gbs, gfs) =>
      .ok { weights := applyGrads upd m.weights gws,
            biases := applyGrads upd m.biases gbs,
            feedback_matrices := applyGrads upd m.feedback_matrices gfs }

/-! ## Shapes -/

/-- A matrix has r rows, each of length c. -/
def HasShape (m : Mat) (r c : Nat) : Prop :=
  m.length = r ∧ ∀ row ∈ m, row.length = c

instance (m : Mat) (r c : Nat) : Decidable (HasShape m r c) :=
  inferInstanceAs (Decidable (m.length = r ∧ ∀ row ∈ m, row.length = c))

theorem colsOf_eq {m : Mat} {r c : Nat} (h : HasShape m r c) (hr : 0 < r) : colsOf m = c := by
  cases m with
  | nil =>
    exfalso
    have h0 := h.1
    simp only [List.length_nil] at h0
    omega
  | cons a t => exact h.2 a (List.mem_cons_self a t)

theorem rectB_true {m : Mat} {r c : Nat} (h : HasShape m r c) : rectB m = true := by
  cases m with
  | nil => rfl
  | cons a t =>
    apply List.all_eq_true.mpr
    intro x hx
    have hc : colsOf (a :: t) = c := h.2 a (List.mem_cons_self a t)
    simp only [hc, beq_iff_eq]
    exact h.2 x hx

theorem matmulT_shape {a w : Mat} {n k m : Nat} (ha : HasShape a n k) (hw : w.length = m) :
    HasShape (matmulT a w) n m := by
  constructor
  · simpa [matmulT] using ha.1
  · intro row hrow
    simp only [matmulT, List.mem_map] at hrow
    obtain ⟨r, _, rfl⟩ := hrow
    simpa using hw

theorem addBias_shape {z : Mat} {b : Vec} {n m : Nat} (hz : HasShape z n m) (hb : b.length = m) :
    HasShape (addBias z b) n m := by
  constructor
  · simpa [addBias] using hz.1
  · intro row hrow
    simp only [addBias, List.mem_map] at hrow
    obtain ⟨r, hr, rfl⟩ := hrow
    simp [hz.2 r hr, hb]

theorem transposeM_shape {m : Mat} {n k : Nat} (h : HasShape m n k) (hn : 0 < n) :
    HasShape (transposeM m) k n := by
  constructor
  · simp [transposeM, colsOf_eq h hn]
  · intro row hrow
    simp only [transposeM, List.mem_map] at hrow
    obtain ⟨j, _, rfl⟩ := hrow
    simpa using h.1

theorem reluM_shape {m : Mat} {n k : Nat} (h : HasShape m n k) : HasShape (reluM m) n k := by
  constructor
  · simpa [reluM] using h.1
  · intro row hrow
    simp only [reluM, List.mem_map] at hrow
    obtain ⟨r, hr, rfl⟩ := hrow
    simpa using h.2 r hr

theorem reluMaskM_shape {m : Mat} {n k : Nat} (h : HasShape m n k) : HasShape (reluMaskM m) n k := by
  constructor
  · simpa [reluMaskM] using h.1
  · intro row hrow
    simp only [reluMaskM, List.mem_map] at hrow
    obtain ⟨r, hr, rfl⟩ := hrow
    simpa using h.2 r hr

theorem hadamardM_shape {x y : Mat} {n k : Nat} (hx : HasShape x n k) (hy : HasShape y n k) :
    HasShape (hadamardM x y) n k := by
  constructor
  · simp [hadamardM, List.length_zipWith, hx.1, hy.1]
  · intro row hrow
    simp only [hadamardM] at hrow
    rw [List.mem_iff_getElem] at hrow
    obtain ⟨i, hi, rfl⟩ := hrow
    rw [List.getElem_zipWith]
    have hil : i < x.length ∧ i < y.length := by
      simp only [List.length_zipWith] at hi
      omega
    simp [hx.2 _ (List.getElem_mem hil.1), hy.2 _ (List.getElem_mem hil.2)]

theorem matmulM_shape {d f : Mat} {n k m : Nat} (hd : HasShape d n k) (hf : HasShape f k m)
    (hk : 0 < k) : HasShape (matmulM d f) n m :=
  matmulT_shape hd (transposeM_shape hf hk).1

theorem tmatmulM_shape {d a : Mat} {n k m : Nat} (hd : HasShape d n k) (ha : HasShape a n m)
    (hn : 0 < n) : HasShape (tmatmulM d a) k m :=
  matmulT_shape (transposeM_shape hd hn) (transposeM_shape ha hn).1

theorem foldl_zipAdd_length :
    ∀ (rs : List Vec) (acc : Vec), (∀ row ∈ rs, row.length = acc.length) →
      (rs.foldl (fun acc r2 => List.zipWith (fun x y => x + y) acc r2) acc).length = acc.length := by
  intro rs
  induction rs with
  | nil => intro acc _; rfl
  | cons r2 rest ih =>
    intro acc hrows
    have hr2 : r2.length = acc.length := hrows r2 (List.mem_cons_self r2 rest)
    have hacc : (List.zipWith (fun x y => x + y) acc r2).length = acc.length := by
      simp [List.length_zipWith, hr2]
    rw [List.foldl_cons, ih _ (by intro row hrow; rw [hacc]; exact hrows row (List.mem_cons_of_mem r2 hrow)), hacc]

theorem colSum_length {d : Mat} {n k : Nat} (hd : HasShape d n k) (hn : 0 < n) :
    (colSum d).length = k := by
  cases d with
  | nil =>
    exfalso
    have h0 := hd.1
    simp only [List.length_nil] at h0
    omega
  | cons r rs =>
    have hr : r.length = k := hd.2 r (List.mem_cons_self r rs)
    show (rs.foldl _ r).length = k
    rw [foldl_zipAdd_length rs r (by intro row hrow; rw [hr]; exact hd.2 row (List.mem_cons_of_mem r hrow))]
    exact hr

theorem affineChk_ok {A W : Mat} {bv : Vec} {n k m : Nat}
    (hA : HasShape A n k) (hn : 0 < n) (hW : HasShape W m k) (hm : 0 < m)
    (hb : bv.length = m) :
    affineChk (.mat A) (.mat W) (.vec bv) = .ok (.mat (addBias (matmulT A W) bv)) := by
  simp [affineChk, rectB_true hA, rectB_true hW, colsOf_eq hA hn, colsOf_eq hW hm, hb, hW.1]

theorem tmatmulChk_ok {D A : Mat} {n k m : Nat} (hD : HasShape D n k) (hA : HasShape A n m) :
    tmatmulChk (.mat D) (.mat A) = .ok (.mat (tmatmulM D A)) := by
  simp [tmatmulChk, rectB_true hD, rectB_true hA, hD.1, hA.1]

theorem matmulChk_ok {D F : Mat} {n k m : Nat} (hD : HasShape D n k) (hn : 0 < n)
    (hF : HasShape F k m) :
    matmulChk (.mat D) (.mat F) = .ok (.mat (matmulM D F)) := by
  simp [matmulChk, rectB_true hD, rectB_true hF, colsOf_eq hD hn, hF.1]

theorem hadamardChk_ok {X Y : Mat} {n k : Nat} (hX : HasShape X n k) (hn : 0 < n)
    (hY : HasShape Y n k) :
    hadamardChk (.mat X) (.mat Y) = .ok (.mat (hadamardM X Y)) := by
  simp [hadamardChk, rectB_true hX, rectB_true hY, hX.1, hY.1, colsOf_eq hX hn, colsOf_eq hY hn]

theorem getD_map_mat (l : List Mat) (i : Nat) :
    (l.map Tensor.mat).getD i (Tensor.mat []) = Tensor.mat (l.getD i []) := by
  induction l generalizing i with
  | nil => simp
  | cons a t ih => cases i <;> simp [ih]

/-! ## Forward characterization -/

/-- Reference recursion for the forward computation, following the spec:
z_i = a_i * W_i^t + b_i, a_{i+1} = relu(z_i) for every layer but the
last, whose raw affine output is the network output. -/
def forwardSpec (input : Mat) : List (Mat × Vec) → Mat
  | [] => input
  | (w, b) :: rest =>
    match rest with
    | [] => addBias (matmulT input w) b
    | _ :: _ => forwardSpec (reluM (addBias (matmulT input w) b)) rest

/-- Shape-consistency of a layer stack against a size chain: the layer at
the head maps width cur to the head out-size s (positive), with a bias of
length s, and the rest chains on from s. -/
def chainWF : Nat → List (Mat × Vec) → List Nat → Prop
  | _, [], [] => True
  | cur, l :: rest, s :: srest => 0 < s ∧ HasShape l.1 s cur ∧ l.2.length = s ∧ chainWF s rest srest
  | _, [], _ :: _ => False
  | _, _ :: _, [] => False

instance chainWFDec : (cur : Nat) → (layers : List (Mat × Vec)) → (outs : List Nat) →
    Decidable (chainWF cur layers outs)
  | _, [], [] => .isTrue trivial
  | _, _ :: rest, s :: srest =>
    have : Decidable (chainWF s rest srest) := chainWFDec s rest srest
    inferInstanceAs (Decidable (_ ∧ _ ∧ _ ∧ _))
  | _, [], _ :: _ => .isFalse (fun h => h)
  | _, _ :: _, [] => .isFalse (fun h => h)

theorem forwardLoop_cons_ok {input w b z : Tensor} (rest : List (Tensor × Tensor))
    (h : affineChk input w b = .ok z) :
    forwardLoop input ((w, b) :: rest) =
      match forwardLoop (if rest.isEmpty then z else reluT z) rest with
      | .error e => .error { zs_done := z :: e.zs_done }
      | .ok (zs, acts, out) => .ok (z :: zs, (if rest.isEmpty then z else reluT z) :: acts, out) := by
  simp only [forwardLoop, h]

theorem forwardLoop_ok :
    ∀ (layers : List (Mat × Vec)) (outs : List Nat) (input : Mat) (n cur : Nat),
      0 < n → HasShape input n cur → chainWF cur layers outs →
      ∃ zs acts,
        forwardLoop (.mat input) (layers.map (fun p => (Tensor.mat p.1, Tensor.vec p.2)))
          = .ok (zs, acts, .mat (forwardSpec input layers))
        ∧ HasShape (forwardSpec input layers) n (outs.getLastD cur) := by
  intro layers
  induction layers with
  | nil =>
    intro outs input n cur hn hin hch
    cases outs with
    | nil => exact ⟨[], [], rfl, by simpa [forwardSpec] using hin⟩
    | cons s srest => exact hch.elim
  | cons l rest ih =>
    intro outs input n cur hn hin hch
    obtain ⟨w, b⟩ := l
    cases outs with
    | nil => exact hch.elim
    | cons s srest =>
      obtain ⟨hs, hw, hb, hch2⟩ := hch
      have hz : HasShape (addBias (matmulT input w) b) n s :=
        addBias_shape (matmulT_shape hin hw.1) hb
      have haff := affineChk_ok hin hn hw hs hb
      cases rest with
      | nil =>
        cases srest with
        | cons s2 srest2 => exact hch2.elim
        | nil =>
          refine ⟨[.mat (addBias (matmulT input w) b)], [.mat (addBias (matmulT input w) b)], ?_, ?_⟩
          · simp [forwardLoop, haff, forwardSpec]
          · simpa [forwardSpec] using hz
      | cons l2 rest2 =>
        cases srest with
        | nil => exact hch2.elim
        | cons s2 srest2 =>
          obtain ⟨zs, acts, hloop, hshape⟩ :=
            ih (s2 :: srest2) (reluM (addBias (matmulT input w) b)) n s hn (reluM_shape hz) hch2
          refine ⟨.mat (addBias (matmulT input w) b) :: zs,
                  .mat (reluM (addBias (matmulT input w) b)) :: acts, ?_, ?_⟩
          · rw [List.map_cons, forwardLoop_cons_ok _ haff]
            simp only [List.map_cons, List.isEmpty_cons, Bool.false_eq_true, if_false, reluT]
            rw [List.map_cons] at hloop
            rw [hloop]
            simp [forwardSpec]
          · simpa [forwardSpec, List.getLastD_cons] using hshape

/-- Division and slicing arithmetic for the variadic parameter list: with
len(params) = 3 * L + e for e < 3, the three slices of length
L = len(params) / 3 recover the weight, bias and feedback lists. -/
theorem params_slices (w b f extra : List Tensor) (hb : b.length = w.length)
    (hf : f.length = w.length) (he : extra.length < 3) :
    ((w ++ b ++ f ++ extra).length / 3 = w.length)
    ∧ (w ++ b ++ f ++ extra).take w.length = w
    ∧ ((w ++ b ++ f ++ extra).drop w.length).take w.length = b
    ∧ ((w ++ b ++ f ++ extra).drop (2 * w.length)).take w.length = f := by
  have hL : (w ++ b ++ f ++ extra).length / 3 = w.length := by
    have hlen : (w ++ b ++ f ++ extra).length = 3 * w.length + extra.length := by
      simp only [List.length_append, hb, hf]
      omega
    rw [hlen, Nat.mul_add_div (by omega), Nat.div_eq_of_lt he]
    omega
  refine ⟨hL, ?_, ?_, ?_⟩
  · simp only [List.append_assoc]
    exact @List.take_left' Tensor w (b ++ (f ++ extra)) w.length rfl
  · simp only [List.append_assoc]
    rw [@List.drop_left' Tensor w (b ++ (f ++ extra)) w.length rfl]
    exact @List.take_left' Tensor b (f ++ extra) w.length hb
  · simp only [List.append_assoc]
    have h2 : 2 * w.length = w.length + w.length := by omega
    rw [h2, ← List.drop_drop, @List.drop_left' Tensor w (b ++ (f ++ extra)) w.length rfl,
       @List.drop_left' Tensor b (f ++ extra) w.length hb]
    exact @List.take_left' Tensor f extra w.length hf

theorem forward_eq_partitioned (input : Tensor) (w b f extra : List Tensor)
    (hb : b.length = w.length) (hf : f.length = w.length) (he : extra.length < 3) :
    FeedbackAlignmentFunction.forward input (w ++ b ++ f ++ extra) =
      forwardPartitioned input w b f := by
  obtain ⟨hL, h1, h2, h3⟩ := params_slices w b f extra hb hf he
  simp only [FeedbackAlignmentFunction.forward]
  rw [hL, h1, h2, h3]

/-! ## Backward characterization -/

/-- One delta-propagation step from layer i to layer i - 1, as the spec
states it: (delta * F_i) elementwise-multiplied by the relu subgradient
mask of z_{i-1}. -/
def deltaStep (fb zv : List Mat) (d : Mat) (i : Nat) : Mat :=
  hadamardM (matmulM d (fb.getD i [])) (reluMaskM (zv.getD (i - 1) []))

/-- The delta pushed k propagation steps below the layer indexed top,
seeded with d at layer top. -/
def deltaIdx (fb zv : List Mat) (d : Mat) (top : Nat) : Nat → Mat
  | 0 => d
  | k + 1 => deltaStep fb zv (deltaIdx fb zv d top k) (top - k)

theorem deltaIdx_shift (fb zv : List Mat) (d : Mat) (top k : Nat) :
    deltaIdx fb zv d top (k + 1) = deltaIdx fb zv (deltaStep fb zv d top) (top - 1) k := by
  induction k with
  | zero => simp [deltaIdx]
  | succ k ih =>
    have harith : top - (k + 1) = top - 1 - k := by omega
    calc deltaIdx fb zv d top (k + 1 + 1)
        = deltaStep fb zv (deltaIdx fb zv d top (k + 1)) (top - (k + 1)) := rfl
      _ = deltaStep fb zv (deltaIdx fb zv (deltaStep fb zv d top) (top - 1) k) (top - 1 - k) := by
          rw [ih, harith]
      _ = deltaIdx fb zv (deltaStep fb zv d top) (top - 1) (k + 1) := rfl

/-- Shape-consistency of a saved backward state over a size chain sizes
(length L + 1, all entries positive) and batch size n: feedback matrix i
has shape (sizes[i+1], sizes[i]), pre-activation i has n rows of width
sizes[i+1], activation i has n rows of width sizes[i]. -/
def SavedWF (sizes : List Nat) (n : Nat) (fb zv a : List Mat) (L : Nat) : Prop :=
  fb.length = L ∧ zv.length = L ∧ a.length = L + 1 ∧ sizes.length = L + 1 ∧
  (∀ i, i < L + 1 → 0 < sizes.getD i 0) ∧
  (∀ i, i < L → HasShape (fb.getD i []) (sizes.getD (i + 1) 0) (sizes.getD i 0)) ∧
  (∀ i, i < L → HasShape (zv.getD i []) n (sizes.getD (i + 1) 0)) ∧
  (∀ i, i < L + 1 → HasShape (a.getD i []) n (sizes.getD i 0))

instance (sizes : List Nat) (n : Nat) (fb zv a : List Mat) (L : Nat) :
    Decidable (SavedWF sizes n fb zv a L) :=
  inferInstanceAs (Decidable (fb.length = L ∧ zv.length = L ∧ a.length = L + 1 ∧
    sizes.length = L + 1 ∧
    (∀ i, i < L + 1 → 0 < sizes.getD i 0) ∧
    (∀ i, i < L → HasShape (fb.getD i []) (sizes.getD (i + 1) 0) (sizes.getD i 0)) ∧
    (∀ i, i < L → HasShape (zv.getD i []) n (sizes.getD (i + 1) 0)) ∧
    (∀ i, i < L + 1 → HasShape (a.getD i []) n (sizes.getD i 0))))

theorem backLoop_ok (sizes : List Nat) (n : Nat) (fb zv a : List Mat) (L : Nat)
    (hwf : SavedWF sizes n fb zv a L) (hn : 0 < n) :
    ∀ (m : Nat) (d : Mat), m ≤ L → HasShape d n (sizes.getD m 0) →
      ∃ gws gbs,
        backLoop (fb.map .mat) (zv.map .mat) (a.map .mat) m (.mat d) = .ok (gws, gbs)
        ∧ gws.length = m ∧ gbs.length = m
        ∧ ∀ j, j < m →
            HasShape (deltaIdx fb zv d (m - 1) (m - 1 - j)) n (sizes.getD (j + 1) 0)
            ∧ gws.getD j (.mat []) = .mat (tmatmulM (deltaIdx fb zv d (m - 1) (m - 1 - j)) (a.getD j []))
            ∧ gbs.getD j (.vec []) = .vec (colSum (deltaIdx fb zv d (m - 1) (m - 1 - j))) := by
  obtain ⟨hfbl, hzvl, hal, hszl, hpos, hfb, hzv, ha⟩ := hwf
  intro m
  induction m with
  | zero =>
    intro d _ _
    exact ⟨[], [], rfl, rfl, rfl, fun j hj => absurd hj (Nat.not_lt_zero j)⟩
  | succ i ih =>
    intro d hm hd
    have hai : HasShape (a.getD i []) n (sizes.getD i 0) := ha i (by omega)
    have htm := tmatmulChk_ok hd hai
    by_cases hi : 0 < i
    · have hfbi : HasShape (fb.getD i []) (sizes.getD (i + 1) 0) (sizes.getD i 0) :=
        hfb i (by omega)
      have hzvi : HasShape (zv.getD (i - 1) []) n (sizes.getD i 0) := by
        have hz := hzv (i - 1) (by omega)
        have heq : i - 1 + 1 = i := by omega
        rw [heq] at hz
        exact hz
      have hmc := matmulChk_ok hd hn hfbi
      have hprod : HasShape (matmulM d (fb.getD i [])) n (sizes.getD i 0) :=
        matmulM_shape hd hfbi (hpos (i + 1) (by omega))
      have hmask : HasShape (reluMaskM (zv.getD (i - 1) [])) n (sizes.getD i 0) :=
        reluMaskM_shape hzvi
      have hhc := hadamardChk_ok hprod hn hmask
      have hdprev : HasShape (deltaStep fb zv d i) n (sizes.getD i 0) :=
        hadamardM_shape hprod hmask
      obtain ⟨gws, gbs, hloop, hlw, hlb, hspec⟩ := ih (deltaStep fb zv d i) (by omega) hdprev
      refine ⟨gws ++ [.mat (tmatmulM d (a.getD i []))], gbs ++ [.vec (colSum d)], ?_, ?_, ?_, ?_⟩
      · simp only [backLoop, getD_map_mat, htm, colSumChk, if_pos hi, hmc, reluMaskT, hhc]
        have hds : Tensor.mat (hadamardM (matmulM d (fb.getD i [])) (reluMaskM (zv.getD (i - 1) []))) =
            Tensor.mat (deltaStep fb zv d i) := rfl
        rw [hds, hloop]
      · simp [hlw]
      · simp [hlb]
      · intro j hj
        rcases Nat.lt_succ_iff_lt_or_eq.mp hj with hjlt | hjeq
        · have hdix : deltaIdx fb zv d i (i - j)
              = deltaIdx fb zv (deltaStep fb zv d i) (i - 1) (i - 1 - j) := by
            have hshift : i - j = (i - 1 - j) + 1 := by omega
            rw [hshift]
            exact deltaIdx_shift fb zv d i (i - 1 - j)
          obtain ⟨hsh, hgw, hgb⟩ := hspec j hjlt
          refine ⟨?_, ?_, ?_⟩
          · show HasShape (deltaIdx fb zv d i (i - j)) n (sizes.getD (j + 1) 0)
            rw [hdix]
            exact hsh
          · show (gws ++ [Tensor.mat (tmatmulM d (a.getD i []))]).getD j (.mat [])
              = .mat (tmatmulM (deltaIdx fb zv d i (i - j)) (a.getD j []))
            rw [List.getD_append _ _ _ j (by omega), hdix]
            exact hgw
          · show (gbs ++ [Tensor.vec (colSum d)]).getD j (.vec [])
              = .vec (colSum (deltaIdx fb zv d i (i - j)))
            rw [List.getD_append _ _ _ j (by omega), hdix]
            exact hgb
        · subst hjeq
          refine ⟨?_, ?_, ?_⟩
          · show HasShape (deltaIdx fb zv d j (j - j)) n (sizes.getD (j + 1) 0)
            rw [Nat.sub_self]
            exact hd
          · show (gws ++ [Tensor.mat (tmatmulM d (a.getD j []))]).getD j (.mat [])
              = .mat (tmatmulM (deltaIdx fb zv d j (j - j)) (a.getD j []))
            rw [List.getD_append_right _ _ _ _ (by omega), hlw, Nat.sub_self]
            rfl
          · show (gbs ++ [Tensor.vec (colSum d)]).getD j (.vec [])
              = .vec (colSum (deltaIdx fb zv d j (j - j)))
            rw [List.getD_append_right _ _ _ _ (by omega), hlb, Nat.sub_self]
            rfl
    · have hi0 : i = 0 := by omega
      subst hi0
      refine ⟨[.mat (tmatmulM d (a.getD 0 []))], [.vec (colSum d)], ?_, rfl, rfl, ?_⟩
      · simp only [backLoop, getD_map_mat, htm, colSumChk, if_neg hi]
      · intro j hj
        have hj0 : j = 0 := by omega
        subst hj0
        exact ⟨hd, rfl, rfl⟩

theorem saved_slices (L : Nat) (A B C D E : List Tensor)
    (hA : A.length = L) (hB : B.length = L) (hC : C.length = L) (hD : D.length = L) :
    ((A ++ B ++ C ++ D ++ E).drop (2 * L)).take L = C
    ∧ ((A ++ B ++ C ++ D ++ E).drop (3 * L)).take L = D
    ∧ (A ++ B ++ C ++ D ++ E).drop (4 * L) = E := by
  refine ⟨?_, ?_, ?_⟩
  · simp only [List.append_assoc]
    have h2 : 2 * L = L + L := by omega
    rw [h2, ← List.drop_drop, @List.drop_left' Tensor A _ L hA, @List.drop_left' Tensor B _ L hB]
    exact @List.take_left' Tensor C _ L hC
  · simp only [List.append_assoc]
    have h3 : 3 * L = L + L + L := by omega
    rw [h3, ← List.drop_drop, ← List.drop_drop, @List.drop_left' Tensor A _ L hA,
       @List.drop_left' Tensor B _ L hB, @List.drop_left' Tensor C _ L hC]
    exact @List.take_left' Tensor D E L hD
  · simp only [List.append_assoc]
    have h4 : 4 * L = L + L + L + L := by omega
    rw [h4, ← List.drop_drop, ← List.drop_drop, ← List.drop_drop, @List.drop_left' Tensor A _ L hA,
       @List.drop_left' Tensor B _ L hB, @List.drop_left' Tensor C _ L hC]
    exact @List.drop_left' Tensor D E L hD

/-- Full characterization of backward on a shape-consistent saved state:
it succeeds, returns None for the input, one dense gradient per weight
and per bias whose values follow the delta chain, and None for every
feedback matrix. -/
theorem backward_char (L n : Nat) (sizes : List Nat) (wT bT : List Tensor)
    (fb zv a : List Mat) (g : Mat)
    (hwT : wT.length = L) (hbT : bT.length = L) (hwf : SavedWF sizes n fb zv a L) (hn : 0 < n)
    (hg : HasShape g n (sizes.getD L 0)) :
    ∃ gws gbs : List Tensor,
      FeedbackAlignmentFunction.backward
        { saved_tensors := wT ++ bT ++ fb.map .mat ++ zv.map .mat ++ a.map .mat, num_layers := L }
        (.mat g)
        = .ok (none, gws.map some, gbs.map some, List.replicate L none)
      ∧ gws.length = L ∧ gbs.length = L
      ∧ ∀ j, j < L →
          HasShape (deltaIdx fb zv g (L - 1) (L - 1 - j)) n (sizes.getD (j + 1) 0)
          ∧ gws.getD j (.mat []) = .mat (tmatmulM (deltaIdx fb zv g (L - 1) (L - 1 - j)) (a.getD j []))
          ∧ gbs.getD j (.vec []) = .vec (colSum (deltaIdx fb zv g (L - 1) (L - 1 - j))) := by
  obtain ⟨hC, hD, hE⟩ := saved_slices L wT bT (fb.map .mat) (zv.map .mat) (a.map .mat) hwT hbT
    (by simp [hwf.1]) (by simp [hwf.2.1])
  obtain ⟨gws, gbs, hloop, hlw, hlb, hspec⟩ := backLoop_ok sizes n fb zv a L hwf hn L g le_rfl hg
  refine ⟨gws, gbs, ?_, hlw, hlb, hspec⟩
  simp only [FeedbackAlignmentFunction.backward]
  rw [hC, hD, hE, hloop]
  simp [hwf.1]

/-- The reversed gradient loop never reads the feedback matrix at index
zero: its result agrees across any two feedback lists that agree from
index one on. -/
theorem backLoop_congr_feedback (f1 f2 zv acts : List Tensor)
    (hcons : ∀ i, 0 < i → f1.getD i (.mat []) = f2.getD i (.mat [])) :
    ∀ (m : Nat) (d : Tensor), backLoop f1 zv acts m d = backLoop f2 zv acts m d := by
  intro m
  induction m with
  | zero => intro d; rfl
  | succ i ih =>
    intro d
    simp only [backLoop]
    rcases htm : tmatmulChk d (acts.getD i (.mat [])) with e | gw
    · rfl
    · dsimp only
      rcases hcs : colSumChk d with e | gb
      · rfl
      · dsimp only
        by_cases hi : 0 < i
        · simp only [if_pos hi, hcons i hi]
          rcases hmc : matmulChk d (f2.getD i (.mat [])) with e | p
          · rfl
          · dsimp only
            rcases hhc : hadamardChk p (reluMaskT (zv.getD (i - 1) (.mat []))) with e | dprev
            · rfl
            · dsimp only
              rw [ih dprev]
        · simp only [if_neg hi]

theorem foldl_zipAdd_getD {k j : Nat} (hj : j < k) :
    ∀ (rs : List Vec) (acc : Vec), acc.length = k → (∀ row ∈ rs, row.length = k) →
      (rs.foldl (fun acc r2 => List.zipWith (fun x y => x + y) acc r2) acc).getD j 0
        = acc.getD j 0 + (rs.map (fun r => r.getD j 0)).sum := by
  intro rs
  induction rs with
  | nil =>
    intro acc _ _
    simp
  | cons r2 rest ih =>
    intro acc hacc hrows
    have hr2 : r2.length = k := hrows r2 (List.mem_cons_self r2 rest)
    have hacc2 : (List.zipWith (fun x y => x + y) acc r2).length = k := by
      simp [List.length_zipWith, hacc, hr2]
    rw [List.foldl_cons, ih _ hacc2 (fun row hrow => hrows row (List.mem_cons_of_mem r2 hrow))]
    have hz : (List.zipWith (fun x y => x + y) acc r2).getD j 0 = acc.getD j 0 + r2.getD j 0 := by
      have h1 : j < (List.zipWith (fun x y => x + y) acc r2).length := by omega
      have h2 : j < acc.length := by omega
      have h3 : j < r2.length := by omega
      rw [List.getD_eq_getElem _ _ h1, List.getD_eq_getElem _ _ h2, List.getD_eq_getElem _ _ h3,
          List.getElem_zipWith]
    rw [hz]
    simp [add_assoc]

theorem colSum_getD {d : Mat} {n k : Nat} (hd : HasShape d n k) (hn : 0 < n) {j : Nat}
    (hj : j < k) :
    (colSum d).getD j 0 = (d.map (fun r => r.getD j 0)).sum := by
  cases d with
  | nil =>
    exfalso
    have h0 := hd.1
    simp only [List.length_nil] at h0
    omega
  | cons r rs =>
    have hr : r.length = k := hd.2 r (List.mem_cons_self r rs)
    show (rs.foldl _ r).getD j 0 = _
    rw [foldl_zipAdd_getD hj rs r hr
        (fun row hrow => hd.2 row (List.mem_cons_of_mem r hrow))]
    simp

/-- Modelled from the spec: standard backpropagation's weight gradient
for one affine layer z = a * W^t + b under incoming gradient g; entry
(jj, c) is the batch sum of g[r][jj] * a[r][c], the outer-product
accumulation over the batch stated in the spec. -/
def backpropAffineGradW (g a0 : Mat) : Mat :=
  (List.range (colsOf g)).map (fun jj =>
    (List.range (colsOf a0)).map (fun c =>
      (List.zipWith (fun grow arow => grow.getD jj 0 * arow.getD c 0) g a0).sum))

/-- Modelled from the spec: standard backpropagation's bias gradient for
one affine layer, the column sums of the incoming gradient over the
batch dimension. -/
def backpropAffineGradB (g : Mat) : Vec :=
  (transposeM g).map (fun col => col.sum)

theorem tmatmulM_eq_backprop (g a0 : Mat) : tmatmulM g a0 = backpropAffineGradW g a0 := by
  unfold tmatmulM matmulT transposeM backpropAffineGradW dot
  simp only [List.map_map]
  apply List.map_congr_left
  intro jj _
  simp only [Function.comp]
  apply List.map_congr_left
  intro c _
  simp only [Function.comp_apply]
  rw [List.zipWith_map]

theorem colSum_eq_backprop {g : Mat} {n k : Nat} (hg : HasShape g n k) (hn : 0 < n) :
    colSum g = backpropAffineGradB g := by
  apply List.ext_getElem
  · rw [colSum_length hg hn]
    simp [backpropAffineGradB, transposeM, colsOf_eq hg hn]
  · intro j h1 h2
    have hj : j < k := by rw [colSum_length hg hn] at h1; exact h1
    rw [← List.getD_eq_getElem (colSum g) 0 h1, colSum_getD hg hn hj]
    simp [backpropAffineGradB, transposeM, List.getElem_map, List.getElem_range, List.map_map]

theorem entry_hadamard_mask {x zm : Mat} {n k : Nat} (hx : HasShape x n k) (hz : HasShape zm n k)
    {r c : Nat} (hr : r < n) (hc : c < k) :
    entry (hadamardM x (reluMaskM zm)) r c = if 0 < entry zm r c then entry x r c else 0 := by
  have hmaskz : HasShape (reluMaskM zm) n k := reluMaskM_shape hz
  have hh : HasShape (hadamardM x (reluMaskM zm)) n k := hadamardM_shape hx hmaskz
  have hr1 : r < (hadamardM x (reluMaskM zm)).length := by rw [hh.1]; exact hr
  have hrx : r < x.length := by rw [hx.1]; exact hr
  have hrz : r < zm.length := by rw [hz.1]; exact hr
  unfold entry
  rw [List.getD_eq_getElem _ _ hr1, List.getD_eq_getElem _ _ hrx, List.getD_eq_getElem _ _ hrz]
  unfold hadamardM reluMaskM
  rw [List.getElem_zipWith]
  have hcx : c < x[r].length := by rw [hx.2 _ (List.getElem_mem hrx)]; exact hc
  have hcz : c < zm[r].length := by rw [hz.2 _ (List.getElem_mem hrz)]; exact hc
  rw [List.getElem_map]
  have hcw : c < (List.zipWith (fun p q => p * q) x[r]
      (zm[r].map (fun v => if 0 < v then (1 : Int) else 0))).length := by
    simp only [List.length_zipWith, List.length_map]
    omega
  rw [List.getD_eq_getElem _ _ hcw, List.getElem_zipWith, List.getElem_map,
      List.getD_eq_getElem _ _ hcx, List.getD_eq_getElem _ _ hcz]
  by_cases hpos : 0 < zm[r][c]
  · rw [if_pos hpos, if_pos hpos, mul_one]
  · rw [if_neg hpos, if_neg hpos, mul_zero]

/-! ## Detection point of a forward shape mismatch -/

/-- The index of the first layer whose affine shape check fails along
forwardLoop's traversal (none when every layer checks out). -/
def failIndex : Tensor → List (Tensor × Tensor) → Option Nat
  | _, [] => none
  | input, (w, b) :: rest =>
    match affineChk input w b with
    | .error _ => some 0
    | .ok z => (failIndex (if rest.isEmpty then z else reluT z) rest).map (fun k => k + 1)

/-- failIndex applied to the weight and bias slices forward carves out of
the flat parameter list. -/
def failIndexF (input : Tensor) (params : List Tensor) : Option Nat :=
  failIndex input ((params.take (params.length / 3)).zip
    ((params.drop (params.length / 3)).take (params.length / 3)))

theorem forwardLoop_failIndex :
    ∀ (layers : List (Tensor × Tensor)) (input : Tensor),
      match forwardLoop input layers with
      | .ok _ => failIndex input layers = none
      | .error e => failIndex input layers = some e.zs_done.length := by
  intro layers
  induction layers with
  | nil =>
    intro input
    simp [forwardLoop, failIndex]
  | cons l rest ih =>
    intro input
    obtain ⟨w, b⟩ := l
    rcases haff : affineChk input w b with e | z
    · simp [forwardLoop, failIndex, haff]
    · have hspec := ih (if rest.isEmpty then z else reluT z)
      rcases hloop : forwardLoop (if rest.isEmpty then z else reluT z) rest with e | res
      · rw [hloop] at hspec
        dsimp only at hspec
        simp only [forwardLoop, failIndex, haff, hloop]
        rw [hspec]
        simp
      · rw [hloop] at hspec
        dsimp only at hspec
        simp only [forwardLoop, failIndex, haff, hloop]
        rw [hspec]
        simp

theorem backward_ok_parts (ctx : FACtx) (g : Tensor) (gin : Option Tensor)
    (gws gbs gfs : List (Option Tensor))
    (h : FeedbackAlignmentFunction.backward ctx g = .ok (gin, gws, gbs, gfs)) :
    gin = none ∧ ∀ x ∈ gfs, x = none := by
  simp only [FeedbackAlignmentFunction.backward] at h
  rcases hloop : backLoop ((ctx.saved_tensors.drop (2 * ctx.num_layers)).take ctx.num_layers)
      ((ctx.saved_tensors.drop (3 * ctx.num_layers)).take ctx.num_layers)
      (ctx.saved_tensors.drop (4 * ctx.num_layers)) ctx.num_layers g with e | pr
  · rw [hloop] at h
    cases h
  · obtain ⟨gw, gb⟩ := pr
    rw [hloop] at h
    dsimp only at h
    have hinj := Except.ok.inj h
    obtain ⟨h1, h2⟩ := Prod.mk.inj hinj
    obtain ⟨h3, h4⟩ := Prod.mk.inj h2
    obtain ⟨h5, h6⟩ := Prod.mk.inj h4
    refine ⟨h1.symm, ?_⟩
    intro x hx
    rw [← h6] at hx
    exact List.eq_of_mem_replicate hx

theorem applyGrads_none (upd : Tensor → Tensor → Tensor) :
    ∀ (ps : List Param) (gs : List (Option Tensor)), (∀ x ∈ gs, x = none) →
      applyGrads upd ps gs = ps := by
  intro ps
  induction ps with
  | nil =>
    intro gs _
    rfl
  | cons p pt ih =>
    intro gs hgs
    cases gs with
    | nil =>
      show p :: applyGrads upd pt [] = p :: pt
      rw [ih [] (fun x hx => absurd hx (List.not_mem_nil x))]
    | cons gq gt =>
      have hg : gq = none := hgs gq (List.mem_cons_self gq gt)
      subst hg
      show optimizerStep upd p none :: applyGrads upd pt gt = p :: pt
      rw [ih gt (fun x hx => hgs x (List.mem_cons_of_mem none hx))]
      rfl

/-! ## The claims -/

/-- C1: on every shape-consistent saved state with L >= 1 layers and a
nonempty batch, backward succeeds and, layer by layer from L-1 down to 0,
produces grad_W_i = delta_i^t * a_i and grad_b_i = the column sums of
delta_i over the batch, where the delta chain starts at grad_output and
the delta passed to layer i-1 (for i > 0) is (delta_i * F_i)
elementwise-multiplied by the relu subgradient mask of z_{i-1}: each of
its entries equals the corresponding entry of delta_i * F_i where
z_{i-1} is strictly positive and is zero otherwise (so a component with
z_{i-1} exactly zero is gated to zero).  The propagation reads only the
feedback matrices: the weight slice wT and bias slice bT are arbitrary
tensors that do not appear in any returned gradient, so the forward
weight transpose is not used. -/
theorem backward_follows_fa_rule (L n : Nat) (sizes : List Nat) (wT bT : List Tensor)
    (fb zv a : List Mat) (g : Mat)
    (hL : 1 ≤ L) (hn : 0 < n) (hwT : wT.length = L) (hbT : bT.length = L)
    (hwf : SavedWF sizes n fb zv a L) (hg : HasShape g n (sizes.getD L 0)) :
    ∃ gws gbs : List Tensor,
      FeedbackAlignmentFunction.backward
        { saved_tensors := wT ++ bT ++ fb.map .mat ++ zv.map .mat ++ a.map .mat, num_layers := L }
        (.mat g)
        = .ok (none, gws.map some, gbs.map some, List.replicate L none)
      ∧ gws.length = L ∧ gbs.length = L
      ∧ (∀ i, i < L →
          gws.getD i (.mat []) = .mat (tmatmulM (deltaIdx fb zv g (L - 1) (L - 1 - i)) (a.getD i []))
          ∧ gbs.getD i (.vec []) = .vec (colSum (deltaIdx fb zv g (L - 1) (L - 1 - i))))
      ∧ (∀ i, 0 < i → i < L →
          deltaIdx fb zv g (L - 1) (L - i)
            = hadamardM (matmulM (deltaIdx fb zv g (L - 1) (L - 1 - i)) (fb.getD i []))
                (reluMaskM (zv.getD (i - 1) []))
          ∧ ∀ r c, r < n → c < sizes.getD i 0 →
              entry (deltaIdx fb zv g (L - 1) (L - i)) r c
                = if 0 < entry (zv.getD (i - 1) []) r c
                  then entry (matmulM (deltaIdx fb zv g (L - 1) (L - 1 - i)) (fb.getD i [])) r c
                  else 0) := by
  obtain ⟨gws, gbs, hbk, hlw, hlb, hspec⟩ := backward_char L n sizes wT bT fb zv a g hwT hbT hwf hn hg
  obtain ⟨hfbl, hzvl, hal, hszl, hpos, hfb, hzv, ha⟩ := hwf
  refine ⟨gws, gbs, hbk, hlw, hlb, ?_, ?_⟩
  · intro i hiL
    obtain ⟨_, hgw, hgb⟩ := hspec i hiL
    exact ⟨hgw, hgb⟩
  · intro i hi0 hiL
    obtain ⟨hdsh, _, _⟩ := hspec i hiL
    have h1 : L - i = (L - 1 - i) + 1 := by omega
    have h2 : (L - 1) - (L - 1 - i) = i := by omega
    have h3 : deltaIdx fb zv g (L - 1) ((L - 1 - i) + 1)
        = deltaStep fb zv (deltaIdx fb zv g (L - 1) (L - 1 - i)) ((L - 1) - (L - 1 - i)) := rfl
    have hstep : deltaIdx fb zv g (L - 1) (L - i)
        = hadamardM (matmulM (deltaIdx fb zv g (L - 1) (L - 1 - i)) (fb.getD i []))
            (reluMaskM (zv.getD (i - 1) [])) := by
      rw [h1, h3, h2]
      rfl
    refine ⟨hstep, ?_⟩
    intro r c hr hc
    have hfbi := hfb i hiL
    have hzvi : HasShape (zv.getD (i - 1) []) n (sizes.getD i 0) := by
      have hzz := hzv (i - 1) (by omega)
      have heq : i - 1 + 1 = i := by omega
      rw [heq] at hzz
      exact hzz
    have hprod : HasShape (matmulM (deltaIdx fb zv g (L - 1) (L - 1 - i)) (fb.getD i [])) n
        (sizes.getD i 0) := matmulM_shape hdsh hfbi (hpos (i + 1) (by omega))
    rw [hstep]
    exact entry_hadamard_mask hprod hzvi hr hc

/-- C2: on every shape-consistent configuration and nonempty batch,
forward on the flattened parameter list computes exactly the spec
recursion z_i = a_i * W_i^t + b_i with a_{i+1} = relu(z_i) for every
layer but the last (whose raw affine output is returned), and the output
batch has n rows of the final layer's output width. -/
theorem forward_affine_relu_shape (layers : List (Mat × Vec)) (fbT : List Tensor)
    (input : Mat) (n cur : Nat) (outs : List Nat)
    (hn : 0 < n) (hin : HasShape input n cur) (hch : chainWF cur layers outs)
    (hfb : fbT.length = layers.length) :
    ∃ ctx : FACtx,
      FeedbackAlignmentFunction.forward (.mat input)
        ((layers.map fun p => Tensor.mat p.1) ++ (layers.map fun p => Tensor.vec p.2) ++ fbT)
        = .ok (ctx, .mat (forwardSpec input layers))
      ∧ HasShape (forwardSpec input layers) n (outs.getLastD cur) := by
  have hb : (layers.map fun p => Tensor.vec p.2).length = (layers.map fun p => Tensor.mat p.1).length := by
    simp
  have hf : fbT.length = (layers.map fun p => Tensor.mat p.1).length := by
    simp [hfb]
  have heq : (layers.map fun p => Tensor.mat p.1) ++ (layers.map fun p => Tensor.vec p.2) ++ fbT
      = (layers.map fun p => Tensor.mat p.1) ++ (layers.map fun p => Tensor.vec p.2) ++ fbT ++ [] := by
    simp
  rw [heq, forward_eq_partitioned _ _ _ _ [] hb hf (by simp)]
  obtain ⟨zs, acts, hloop, hshape⟩ := forwardLoop_ok layers outs input n cur hn hin hch
  have hzip : (layers.map fun p => Tensor.mat p.1).zip (layers.map fun p => Tensor.vec p.2)
      = layers.map (fun p => (Tensor.mat p.1, Tensor.vec p.2)) := by
    rw [List.zip_map']
  simp only [forwardPartitioned, hzip, hloop]
  exact ⟨_, rfl, hshape⟩

/-- C3: on every shape-consistent saved state with L >= 1 layers and a
nonempty batch, backward returns a dense gradient for every weight with
exactly the weight's shape and for every bias with exactly the bias's
length, returns None (no gradient) for the original input, and returns
None for every feedback matrix. -/
theorem backward_gradient_shapes (L n : Nat) (sizes : List Nat) (w : List Mat) (bs : List Vec)
    (fb zv a : List Mat) (g : Mat)
    (hL : 1 ≤ L) (hn : 0 < n) (hw : w.length = L) (hbs : bs.length = L)
    (hwsh : ∀ i, i < L → HasShape (w.getD i []) (sizes.getD (i + 1) 0) (sizes.getD i 0))
    (hbsh : ∀ i, i < L → (bs.getD i []).length = sizes.getD (i + 1) 0)
    (hwf : SavedWF sizes n fb zv a L) (hg : HasShape g n (sizes.getD L 0)) :
    ∃ gws gbs : List Tensor,
      FeedbackAlignmentFunction.backward
        { saved_tensors := w.map .mat ++ bs.map .vec ++ fb.map .mat ++ zv.map .mat ++ a.map .mat,
          num_layers := L } (.mat g)
        = .ok (none, gws.map some, gbs.map some, List.replicate L none)
      ∧ gws.length = L ∧ gbs.length = L
      ∧ (∀ i, i < L → ∃ gm : Mat, gws.getD i (.mat []) = .mat gm
          ∧ gm.length = (w.getD i []).length
          ∧ ∀ row ∈ gm, row.length = colsOf (w.getD i []))
      ∧ (∀ i, i < L → ∃ gv : Vec, gbs.getD i (.vec []) = .vec gv
          ∧ gv.length = (bs.getD i []).length) := by
  obtain ⟨gws, gbs, hbk, hlw, hlb, hspec⟩ := backward_char L n sizes (w.map .mat) (bs.map .vec)
    fb zv a g (by simp [hw]) (by simp [hbs]) hwf hn hg
  obtain ⟨hfbl, hzvl, hal, hszl, hpos, hfb, hzv, ha⟩ := hwf
  refine ⟨gws, gbs, hbk, hlw, hlb, ?_, ?_⟩
  · intro i hiL
    obtain ⟨hdsh, hgw, _⟩ := hspec i hiL
    have hgsh : HasShape (tmatmulM (deltaIdx fb zv g (L - 1) (L - 1 - i)) (a.getD i []))
        (sizes.getD (i + 1) 0) (sizes.getD i 0) :=
      tmatmulM_shape hdsh (ha i (by omega)) hn
    refine ⟨tmatmulM (deltaIdx fb zv g (L - 1) (L - 1 - i)) (a.getD i []), hgw, ?_, ?_⟩
    · rw [hgsh.1, (hwsh i hiL).1]
    · intro row hrow
      rw [hgsh.2 row hrow, colsOf_eq (hwsh i hiL) (hpos (i + 1) (by omega))]
  · intro i hiL
    obtain ⟨hdsh, _, hgb⟩ := hspec i hiL
    refine ⟨colSum (deltaIdx fb zv g (L - 1) (L - 1 - i)), hgb, ?_⟩
    rw [colSum_length hdsh hn, hbsh i hiL]

/-- C4: for a single-layer network (num_layers = 1) on any
shape-consistent saved state and nonempty batch, backward's gradients
are exactly standard backpropagation's gradients for the affine layer:
grad_W = g^t * a_0 (the batch outer-product sum) and grad_b = the column
sums of g, independently of the stored feedback matrix and
pre-activation. -/
theorem single_layer_matches_backprop (n : Nat) (sizes : List Nat) (wT bT : List Tensor)
    (f0 z0 a0 aL : Mat) (g : Mat)
    (hn : 0 < n) (hwT : wT.length = 1) (hbT : bT.length = 1)
    (hwf : SavedWF sizes n [f0] [z0] [a0, aL] 1) (hg : HasShape g n (sizes.getD 1 0)) :
    FeedbackAlignmentFunction.backward
      { saved_tensors := wT ++ bT ++ [.mat f0] ++ [.mat z0] ++ [.mat a0, .mat aL],
        num_layers := 1 } (.mat g)
      = .ok (none, [some (.mat (backpropAffineGradW g a0))],
             [some (.vec (backpropAffineGradB g))], [none]) := by
  obtain ⟨gws, gbs, hbk, hlw, hlb, hspec⟩ :=
    backward_char 1 n sizes wT bT [f0] [z0] [a0, aL] g hwT hbT hwf hn hg
  obtain ⟨hdsh, hgw, hgb⟩ := hspec 0 (by omega)
  have hgws : gws = [.mat (tmatmulM g a0)] := by
    cases gws with
    | nil => simp at hlw
    | cons x t =>
      cases t with
      | cons y t2 => simp at hlw
      | nil =>
        have hx : x = .mat (tmatmulM g a0) := by simpa using hgw
        rw [hx]
  have hgbs : gbs = [.vec (colSum g)] := by
    cases gbs with
    | nil => simp at hlb
    | cons x t =>
      cases t with
      | cons y t2 => simp at hlb
      | nil =>
        have hx : x = .vec (colSum g) := by simpa using hgb
        rw [hx]
  rw [hgws, hgbs] at hbk
  rw [← tmatmulM_eq_backprop g a0, ← colSum_eq_backprop hg hn]
  simpa using hbk

/-- C5: every feedback matrix is fixed for the model's lifetime: any
successfully constructed model carries requires_grad = False on each
feedback matrix, reset_parameters rewrites only weights and biases and
returns the feedback list unchanged, and a training step (forward, then
backward, then the spec-modelled optimizer update, which skips
parameters whose gradient is null) leaves the feedback list bitwise
unchanged. -/
theorem feedback_matrices_never_update (input_size output_size : Nat) (hidden_sizes : List Nat)
    (rawW : Nat → Nat → Mat) (rawB : Nat → Vec) (randn : Nat → Nat → Mat) (ks ks2 : Nat → Mat)
    (upd : Tensor → Tensor → Tensor) (m m2 : FeedbackAlignmentMLP) (input gout : Tensor)
    (hm : FeedbackAlignmentMLP.construct input_size hidden_sizes output_size rawW rawB randn ks
      = .ok m) :
    (∀ p ∈ m.feedback_matrices, p.requires_grad = false)
    ∧ (m.reset_parameters ks2).feedback_matrices = m.feedback_matrices
    ∧ (trainStep upd m input gout = .ok m2 → m2.feedback_matrices = m.feedback_matrices) := by
  refine ⟨?_, rfl, ?_⟩
  · rcases hlast : hidden_sizes.getLast? with _ | lastHidden
    · rw [FeedbackAlignmentMLP.construct, hlast] at hm
      cases hm
    · rw [FeedbackAlignmentMLP.construct, hlast] at hm
      have hmv := Except.ok.inj hm
      subst hmv
      intro p hp
      simp only [FeedbackAlignmentMLP.reset_parameters] at hp
      rcases List.mem_append.mp hp with h | h
      · obtain ⟨pr, _, hpr⟩ := List.mem_map.mp h
        rw [← hpr]
      · rw [List.mem_singleton.mp h]
  · intro ht
    simp only [trainStep] at ht
    rcases hf : m.forward input with e | pr
    · rw [hf] at ht
      cases ht
    · obtain ⟨ctx, out⟩ := pr
      rw [hf] at ht
      dsimp only at ht
      rcases hbk : FeedbackAlignmentFunction.backward ctx gout with e | res
      · rw [hbk] at ht
        cases ht
      · obtain ⟨gin, gws, gbs, gfs⟩ := res
        rw [hbk] at ht
        dsimp only at ht
        have hnone := (backward_ok_parts ctx gout gin gws gbs gfs hbk).2
        have hmv := Except.ok.inj ht
        rw [← hmv]
        show applyGrads upd m.feedback_matrices gfs = m.feedback_matrices
        exact applyGrads_none upd m.feedback_matrices gfs hnone

/-- C6: the results of backward (gradients or failure alike) are
independent of the value of the feedback matrix at index 0: two saved
states that differ only in that entry yield identical returns, because
the backward recursion reads feedback_matrices[i] only when propagating
into layer i - 1 for i > 0.  Only the slice lengths are needed; no shape
consistency is assumed. -/
theorem backward_independent_of_first_feedback (L : Nat) (wT bT zT aT : List Tensor)
    (f0 f0b : Tensor) (fr : List Tensor) (g : Tensor)
    (hw : wT.length = L) (hb : bT.length = L) (hf : fr.length + 1 = L) (hz : zT.length = L) :
    FeedbackAlignmentFunction.backward
      { saved_tensors := wT ++ bT ++ (f0 :: fr) ++ zT ++ aT, num_layers := L } g
      = FeedbackAlignmentFunction.backward
        { saved_tensors := wT ++ bT ++ (f0b :: fr) ++ zT ++ aT, num_layers := L } g := by
  have hflen : (f0 :: fr).length = L := by simpa using hf
  have hflen2 : (f0b :: fr).length = L := by simpa using hf
  obtain ⟨hC1, hD1, hE1⟩ := saved_slices L wT bT (f0 :: fr) zT aT hw hb hflen hz
  obtain ⟨hC2, hD2, hE2⟩ := saved_slices L wT bT (f0b :: fr) zT aT hw hb hflen2 hz
  have hcons : ∀ i, 0 < i → (f0 :: fr).getD i (.mat []) = (f0b :: fr).getD i (.mat []) := by
    intro i hi
    cases i with
    | zero => omega
    | succ k => simp [List.getD_cons_succ]
  simp only [FeedbackAlignmentFunction.backward]
  rw [hC1, hC2, hD1, hD2, hE1, hE2, backLoop_congr_feedback (f0 :: fr) (f0b :: fr) zT aT hcons L g,
      hflen, hflen2]

/-- C7: constructing the model with an empty hidden-size list fails with
a ConfigurationError at construction time (the unconditional read of the
last hidden size for the final feedback matrix has no value to read),
and no model value is produced, so no partially-initialized model state
is observable. -/
theorem construct_empty_hidden_fails (input_size output_size : Nat)
    (rawW : Nat → Nat → Mat) (rawB : Nat → Vec) (randn : Nat → Nat → Mat) (ks : Nat → Mat) :
    FeedbackAlignmentMLP.construct input_size [] output_size rawW rawB randn ks
      = .error ConfigurationError.emptyHiddenSizes := rfl

/-- C9: forward and backward are pure, deterministic computations: two
runs on equal inputs, equal parameter lists, equal saved contexts and
equal output gradients return identical results; the op itself contains
no randomness. -/
theorem forward_backward_deterministic (i1 i2 : Tensor) (p1 p2 : List Tensor)
    (c1 c2 : FACtx) (g1 g2 : Tensor)
    (hi : i1 = i2) (hp : p1 = p2) (hc : c1 = c2) (hg : g1 = g2) :
    FeedbackAlignmentFunction.forward i1 p1 = FeedbackAlignmentFunction.forward i2 p2
    ∧ FeedbackAlignmentFunction.backward c1 g1 = FeedbackAlignmentFunction.backward c2 g2 := by
  subst hi
  subst hp
  subst hc
  subst hg
  exact ⟨rfl, rfl⟩

/-- C10: forward partitions its flat parameter list by
num_layers = len(params) / 3, treating the first num_layers entries as
weights, the next num_layers as biases and the next num_layers as
feedback matrices, and when len(params) is not a multiple of 3 the
trailing len(params) mod 3 entries are silently ignored rather than
rejected: the call equals the partitioned computation on the three
slices alone. -/
theorem forward_partitions_and_ignores_trailing (input : Tensor) (w b f extra : List Tensor)
    (hb : b.length = w.length) (hf : f.length = w.length) (he : extra.length < 3) :
    FeedbackAlignmentFunction.forward input (w ++ b ++ f ++ extra) =
      forwardPartitioned input w b f :=
  forward_eq_partitioned input w b f extra hb hf he

/-- C8 (amended): forward fails exactly on a shape mismatch and raises
nothing else: it succeeds precisely when no layer's affine shape check
breaks (failIndexF = none), and when it fails the ShapeMismatch error is
raised at the first inconsistent layer, before that layer's affine
arithmetic but after the preceding layers' pre-activations have been
computed — the error's recorded trace has exactly as many entries as
there are layers before the first break. -/
theorem forward_mismatch_first_break (input : Tensor) (params : List Tensor) :
    match FeedbackAlignmentFunction.forward input params with
    | .ok _ => failIndexF input params = none
    | .error e => failIndexF input params = some e.zs_done.length := by
  have h := forwardLoop_failIndex ((params.take (params.length / 3)).zip
    ((params.drop (params.length / 3)).take (params.length / 3))) input
  simp only [FeedbackAlignmentFunction.forward, forwardPartitioned, failIndexF]
  rcases hloop : forwardLoop input ((params.take (params.length / 3)).zip
      ((params.drop (params.length / 3)).take (params.length / 3))) with e | res
  · rw [hloop] at h
    dsimp only at h
    dsimp only
    exact h
  · obtain ⟨zvs, acts, out⟩ := res
    rw [hloop] at h
    dsimp only at h
    dsimp only
    exact h

/-- C8 counterexample: a two-layer network whose shapes mismatch between
layer 0's output (width 1) and layer 1's weight (input width 2): forward
fails with a ShapeMismatch, but its recorded trace shows that layer 0's
affine arithmetic (the pre-activation [[2]]) had already been performed
before the mismatch was detected — refuting the claim that no layer's
affine computation is performed before the mismatch is detected. -/
theorem forward_mismatch_after_arithmetic_cex :
    FeedbackAlignmentFunction.forward (.mat [[1]])
        [.mat [[2]], .mat [[1, 2]], .vec [0], .vec [0], .mat [[0]], .mat [[0]]]
      = .error { zs_done := [.mat [[2]]] }
    ∧ ({ zs_done := [.mat [[2]]] } : ShapeMismatch).zs_done.length = 1 :=
  ⟨rfl, rfl⟩

theorem backward_follows_fa_rule_witness :
    (1 ≤ 2 ∧ 0 < 1
      ∧ ([Tensor.mat [[0]], Tensor.mat [[0]]] : List Tensor).length = 2
      ∧ ([Tensor.vec [0], Tensor.vec [0]] : List Tensor).length = 2
      ∧ SavedWF [1, 1, 1] 1 [[[2]], [[3]]] [[[5]], [[-1]]] [[[1]], [[4]], [[6]]] 2
      ∧ HasShape [[7]] 1 ([1, 1, 1].getD 2 0))
    ∧ (∃ gws gbs : List Tensor,
        FeedbackAlignmentFunction.backward
          { saved_tensors := [Tensor.mat [[0]], Tensor.mat [[0]]]
              ++ [Tensor.vec [0], Tensor.vec [0]]
              ++ ([[[2]], [[3]]] : List Mat).map .mat
              ++ ([[[5]], [[-1]]] : List Mat).map .mat
              ++ ([[[1]], [[4]], [[6]]] : List Mat).map .mat,
            num_layers := 2 }
          (.mat [[7]])
          = .ok (none, gws.map some, gbs.map some, List.replicate 2 none)
        ∧ gws.length = 2 ∧ gbs.length = 2
        ∧ (∀ i, i < 2 →
            gws.getD i (.mat [])
              = .mat (tmatmulM (deltaIdx [[[2]], [[3]]] [[[5]], [[-1]]] [[7]] (2 - 1) (2 - 1 - i))
                  (([[[1]], [[4]], [[6]]] : List Mat).getD i []))
            ∧ gbs.getD i (.vec [])
              = .vec (colSum (deltaIdx [[[2]], [[3]]] [[[5]], [[-1]]] [[7]] (2 - 1) (2 - 1 - i))))
        ∧ (∀ i, 0 < i → i < 2 →
            deltaIdx [[[2]], [[3]]] [[[5]], [[-1]]] [[7]] (2 - 1) (2 - i)
              = hadamardM (matmulM (deltaIdx [[[2]], [[3]]] [[[5]], [[-1]]] [[7]] (2 - 1) (2 - 1 - i))
                  (([[[2]], [[3]]] : List Mat).getD i []))
                  (reluMaskM (([[[5]], [[-1]]] : List Mat).getD (i - 1) []))
            ∧ ∀ r c, r < 1 → c < [1, 1, 1].getD i 0 →
                entry (deltaIdx [[[2]], [[3]]] [[[5]], [[-1]]] [[7]] (2 - 1) (2 - i)) r c
                  = if 0 < entry (([[[5]], [[-1]]] : List Mat).getD (i - 1) []) r c
                    then entry (matmulM (deltaIdx [[[2]], [[3]]] [[[5]], [[-1]]] [[7]] (2 - 1) (2 - 1 - i))
                        (([[[2]], [[3]]] : List Mat).getD i [])) r c
                    else 0)) :=
  ⟨⟨by norm_num, by norm_num, rfl, rfl, by decide, by decide⟩,
    backward_follows_fa_rule 2 1 [1, 1, 1] [Tensor.mat [[0]], Tensor.mat [[0]]]
      [Tensor.vec [0], Tensor.vec [0]] [[[2]], [[3]]] [[[5]], [[-1]]] [[[1]], [[4]], [[6]]] [[7]]
      (by norm_num) (by norm_num) rfl rfl (by decide) (by decide)⟩

theorem forward_affine_relu_shape_witness :
    (0 < 1 ∧ HasShape [[3]] 1 1
      ∧ chainWF 1 [([[1], [1]], [0, 0]), ([[1, 1]], [0])] [2, 1]
      ∧ ([Tensor.mat [], Tensor.mat []] : List Tensor).length
          = ([([[1], [1]], [0, 0]), ([[1, 1]], [0])] : List (Mat × Vec)).length)
    ∧ (∃ ctx : FACtx,
        FeedbackAlignmentFunction.forward (.mat [[3]])
          ((([([[1], [1]], [0, 0]), ([[1, 1]], [0])] : List (Mat × Vec)).map fun p => Tensor.mat p.1)
            ++ (([([[1], [1]], [0, 0]), ([[1, 1]], [0])] : List (Mat × Vec)).map fun p => Tensor.vec p.2)
            ++ [Tensor.mat [], Tensor.mat []])
          = .ok (ctx, .mat (forwardSpec [[3]] [([[1], [1]], [0, 0]), ([[1, 1]], [0])]))
        ∧ HasShape (forwardSpec [[3]] [([[1], [1]], [0, 0]), ([[1, 1]], [0])]) 1
            ([2, 1].getLastD 1)) :=
  ⟨⟨by norm_num, by decide, by decide, rfl⟩,
    forward_affine_relu_shape [([[1], [1]], [0, 0]), ([[1, 1]], [0])] [Tensor.mat [], Tensor.mat []]
      [[3]] 1 1 [2, 1] (by norm_num) (by decide) (by decide) rfl⟩

theorem backward_gradient_shapes_witness :
    (1 ≤ 2 ∧ 0 < 1
      ∧ ([[[1]], [[1]]] : List Mat).length = 2 ∧ ([[0], [0]] : List Vec).length = 2
      ∧ (∀ i, i < 2 → HasShape (([[[1]], [[1]]] : List Mat).getD i [])
          ([1, 1, 1].getD (i + 1) 0) ([1, 1, 1].getD i 0))
      ∧ (∀ i, i < 2 → (([[0], [0]] : List Vec).getD i []).length = [1, 1, 1].getD (i + 1) 0)
      ∧ SavedWF [1, 1, 1] 1 [[[2]], [[3]]] [[[5]], [[-1]]] [[[1]], [[4]], [[6]]] 2
      ∧ HasShape [[7]] 1 ([1, 1, 1].getD 2 0))
    ∧ (∃ gws gbs : List Tensor,
        FeedbackAlignmentFunction.backward
          { saved_tensors := ([[[1]], [[1]]] : List Mat).map .mat
              ++ ([[0], [0]] : List Vec).map .vec
              ++ ([[[2]], [[3]]] : List Mat).map .mat
              ++ ([[[5]], [[-1]]] : List Mat).map .mat
              ++ ([[[1]], [[4]], [[6]]] : List Mat).map .mat,
            num_layers := 2 } (.mat [[7]])
          = .ok (none, gws.map some, gbs.map some, List.replicate 2 none)
        ∧ gws.length = 2 ∧ gbs.length = 2
        ∧ (∀ i, i < 2 → ∃ gm : Mat, gws.getD i (.mat []) = .mat gm
            ∧ gm.length = (([[[1]], [[1]]] : List Mat).getD i []).length
            ∧ ∀ row ∈ gm, row.length = colsOf (([[[1]], [[1]]] : List Mat).getD i []))
        ∧ (∀ i, i < 2 → ∃ gv : Vec, gbs.getD i (.vec []) = .vec gv
            ∧ gv.length = (([[0], [0]] : List Vec).getD i []).length)) :=
  ⟨⟨by norm_num, by norm_num, rfl, rfl, by decide, by decide, by decide, by decide⟩,
    backward_gradient_shapes 2 1 [1, 1, 1] [[[1]], [[1]]] [[0], [0]]
      [[[2]], [[3]]] [[[5]], [[-1]]] [[[1]], [[4]], [[6]]] [[7]]
      (by norm_num) (by norm_num) rfl rfl (by decide) (by decide) (by decide) (by decide)⟩

theorem single_layer_matches_backprop_witness :
    (0 < 1 ∧ ([Tensor.mat [[0]]] : List Tensor).length = 1
      ∧ ([Tensor.vec [0]] : List Tensor).length = 1
      ∧ SavedWF [1, 1] 1 [[[2]]] [[[3]]] [[[4]], [[5]]] 1
      ∧ HasShape [[6]] 1 ([1, 1].getD 1 0))
    ∧ FeedbackAlignmentFunction.backward
        { saved_tensors := [Tensor.mat [[0]]] ++ [Tensor.vec [0]] ++ [.mat [[2]]] ++ [.mat [[3]]]
            ++ [.mat [[4]], .mat [[5]]],
          num_layers := 1 } (.mat [[6]])
        = .ok (none, [some (.mat (backpropAffineGradW [[6]] [[4]]))],
               [some (.vec (backpropAffineGradB [[6]]))], [none]) :=
  ⟨⟨by norm_num, rfl, rfl, by decide, by decide⟩,
    single_layer_matches_backprop 1 [1, 1] [Tensor.mat [[0]]] [Tensor.vec [0]]
      [[2]] [[3]] [[4]] [[5]] [[6]] (by norm_num) rfl rfl (by decide) (by decide)⟩

theorem feedback_matrices_never_update_witness :
    (FeedbackAlignmentMLP.construct 1 [1] 1 (fun _ _ => [[0]]) (fun _ => [0]) (fun _ _ => [[7]])
        (fun _ => [[1]])
      = .ok (⟨[⟨.mat [[1]], true⟩, ⟨.mat [[1]], true⟩], [⟨.vec [0], true⟩, ⟨.vec [0], true⟩],
              [⟨.mat [[7]], false⟩, ⟨.mat [[7]], false⟩]⟩ : FeedbackAlignmentMLP))
    ∧ ((∀ p ∈ (⟨[⟨.mat [[1]], true⟩, ⟨.mat [[1]], true⟩], [⟨.vec [0], true⟩, ⟨.vec [0], true⟩],
              [⟨.mat [[7]], false⟩, ⟨.mat [[7]], false⟩]⟩ : FeedbackAlignmentMLP).feedback_matrices,
          p.requires_grad = false)
      ∧ ((⟨[⟨.mat [[1]], true⟩, ⟨.mat [[1]], true⟩], [⟨.vec [0], true⟩, ⟨.vec [0], true⟩],
              [⟨.mat [[7]], false⟩, ⟨.mat [[7]], false⟩]⟩ : FeedbackAlignmentMLP).reset_parameters
            (fun _ => [[1]])).feedback_matrices
          = (⟨[⟨.mat [[1]], true⟩, ⟨.mat [[1]], true⟩], [⟨.vec [0], true⟩, ⟨.vec [0], true⟩],
              [⟨.mat [[7]], false⟩, ⟨.mat [[7]], false⟩]⟩ : FeedbackAlignmentMLP).feedback_matrices
      ∧ (trainStep (fun v _ => v)
            (⟨[⟨.mat [[1]], true⟩, ⟨.mat [[1]], true⟩], [⟨.vec [0], true⟩, ⟨.vec [0], true⟩],
              [⟨.mat [[7]], false⟩, ⟨.mat [[7]], false⟩]⟩ : FeedbackAlignmentMLP)
            (.mat [[1]]) (.mat [[1]])
          = .ok (⟨[⟨.mat [[1]], true⟩, ⟨.mat [[1]], true⟩], [⟨.vec [0], true⟩, ⟨.vec [0], true⟩],
              [⟨.mat [[7]], false⟩, ⟨.mat [[7]], false⟩]⟩ : FeedbackAlignmentMLP)
          → (⟨[⟨.mat [[1]], true⟩, ⟨.mat [[1]], true⟩], [⟨.vec [0], true⟩, ⟨.vec [0], true⟩],
              [⟨.mat [[7]], false⟩, ⟨.mat [[7]], false⟩]⟩ : FeedbackAlignmentMLP).feedback_matrices
            = (⟨[⟨.mat [[1]], true⟩, ⟨.mat [[1]], true⟩], [⟨.vec [0], true⟩, ⟨.vec [0], true⟩],
              [⟨.mat [[7]], false⟩, ⟨.mat [[7]], false⟩]⟩ : FeedbackAlignmentMLP).feedback_matrices)) :=
  ⟨rfl,
    feedback_matrices_never_update 1 1 [1] (fun _ _ => [[0]]) (fun _ => [0]) (fun _ _ => [[7]])
      (fun _ => [[1]]) (fun _ => [[1]]) (fun v _ => v)
      (⟨[⟨.mat [[1]], true⟩, ⟨.mat [[1]], true⟩], [⟨.vec [0], true⟩, ⟨.vec [0], true⟩],
        [⟨.mat [[7]], false⟩, ⟨.mat [[7]], false⟩]⟩ : FeedbackAlignmentMLP)
      (⟨[⟨.mat [[1]], true⟩, ⟨.mat [[1]], true⟩], [⟨.vec [0], true⟩, ⟨.vec [0], true⟩],
        [⟨.mat [[7]], false⟩, ⟨.mat [[7]], false⟩]⟩ : FeedbackAlignmentMLP)
      (.mat [[1]]) (.mat [[1]]) rfl⟩

theorem backward_independent_of_first_feedback_witness :
    (([Tensor.vec []] : List Tensor).length = 1 ∧ ([Tensor.vec []] : List Tensor).length = 1
      ∧ ([] : List Tensor).length + 1 = 1 ∧ ([Tensor.vec []] : List Tensor).length = 1)
    ∧ FeedbackAlignmentFunction.backward
        { saved_tensors := [Tensor.vec []] ++ [Tensor.vec []] ++ (Tensor.mat [[1]] :: [])
            ++ [Tensor.vec []] ++ [], num_layers := 1 } (.vec [])
      = FeedbackAlignmentFunction.backward
        { saved_tensors := [Tensor.vec []] ++ [Tensor.vec []] ++ (Tensor.mat [[2]] :: [])
            ++ [Tensor.vec []] ++ [], num_layers := 1 } (.vec []) :=
  ⟨⟨rfl, rfl, rfl, rfl⟩,
    backward_independent_of_first_feedback 1 [Tensor.vec []] [Tensor.vec []] [Tensor.vec []] []
      (Tensor.mat [[1]]) (Tensor.mat [[2]]) [] (Tensor.vec []) rfl rfl rfl rfl⟩

theorem forward_backward_deterministic_witness :
    ((Tensor.vec [] : Tensor) = Tensor.vec [] ∧ ([] : List Tensor) = []
      ∧ ({ saved_tensors := [], num_layers := 0 } : FACtx) = { saved_tensors := [], num_layers := 0 }
      ∧ (Tensor.vec [] : Tensor) = Tensor.vec [])
    ∧ (FeedbackAlignmentFunction.forward (Tensor.vec []) []
        = FeedbackAlignmentFunction.forward (Tensor.vec []) []
      ∧ FeedbackAlignmentFunction.backward { saved_tensors := [], num_layers := 0 } (Tensor.vec [])
        = FeedbackAlignmentFunction.backward { saved_tensors := [], num_layers := 0 } (Tensor.vec [])) :=
  ⟨⟨rfl, rfl, rfl, rfl⟩, forward_backward_deterministic _ _ _ _ _ _ _ _ rfl rfl rfl rfl⟩

theorem forward_partitions_and_ignores_trailing_witness :
    (([Tensor.vec [0]] : List Tensor).length = ([Tensor.mat [[1]]] : List Tensor).length
      ∧ ([Tensor.mat [[1]]] : List Tensor).length = ([Tensor.mat [[1]]] : List Tensor).length
      ∧ ([Tensor.vec [9]] : List Tensor).length < 3)
    ∧ FeedbackAlignmentFunction.forward (.mat [[1]])
        ([Tensor.mat [[1]]] ++ [Tensor.vec [0]] ++ [Tensor.mat [[1]]] ++ [Tensor.vec [9]])
      = forwardPartitioned (.mat [[1]]) [Tensor.mat [[1]]] [Tensor.vec [0]] [Tensor.mat [[1]]] :=
  ⟨⟨rfl, rfl, by norm_num⟩,
    forward_partitions_and_ignores_trailing (.mat [[1]]) [Tensor.mat [[1]]] [Tensor.vec [0]]
      [Tensor.mat [[1]]] [Tensor.vec [9]] rfl rfl (by norm_num)⟩
